import Mathlib

/-!
Verification of the inventory-resolution and recommendation-integrity engine
of the Campbell Cigars concierge (chat route `src/app/api/chat/route.ts`).

The engine is shallowly embedded: every JavaScript function of the core is
translated into an executable Lean definition operating on `String` /
`List Char`.  JavaScript regular expressions are hand-compiled into
character-list matchers with the same alternation order, greediness and
backtracking behaviour (case-insensitive patterns are modelled by matching on
the lowercased text, which is observationally equivalent here because every
downstream consumer lowercases its input).  JavaScript string truthiness
(`undefined` and `""` are falsy) is modelled by `Option String` together with
an explicit non-emptiness test.
-/

/-- Character list; the embedding works on `String.data`. -/
abbrev Chars := List Char

/-- The characters of a string literal. -/
def cs (x : String) : Chars := x.data

/-- ASCII lowercase conversion of one character (models the ASCII fragment of
JavaScript `toLowerCase`; all catalog data and patterns are ASCII). -/
def lowerChar (c : Char) : Char :=
  if 65 ≤ c.toNat ∧ c.toNat ≤ 90 then Char.ofNat (c.toNat + 32) else c

/-- Lowercase a character list. -/
def lowerChars (l : Chars) : Chars := l.map lowerChar

/-- JavaScript whitespace test (ASCII fragment plus the usual space class). -/
def isWs (c : Char) : Bool := c.isWhitespace

/-- The `String.prototype.trim`: drop whitespace from both ends. -/
def trimChars (l : Chars) : Chars :=
  ((l.dropWhile isWs).reverse.dropWhile isWs).reverse

/-- Normalization applied to both query parts: `s.toLowerCase().trim()`. -/
def normQ (s : String) : Chars := trimChars (lowerChars s.data)

/-- Substring test, `hay.includes(needle)` of JavaScript. -/
def subStr (needle hay : Chars) : Bool :=
  (List.range (hay.length + 1)).any (fun i => needle.isPrefixOf (hay.drop i))

/-- Separator class of the tokenizer: whitespace, hyphen, en dash, em dash,
slash, period, comma, semicolon, colon and parentheses
(`/[\s\-–—\/.,;:()]+/`). -/
def isSepChar (c : Char) : Bool :=
  isWs c || c = '-' || c = Char.ofNat 8211 || c = Char.ofNat 8212 ||
  c = '/' || c = '.' || c = ',' || c = ';' || c = ':' || c = '(' || c = ')'

/-- Apostrophe characters stripped by the tokenizer (a two-character regex
class): the straight apostrophe U+0027 and the right single quotation mark
U+2019. -/
def isApostrophe (c : Char) : Bool :=
  c = Char.ofNat 39 || c = Char.ofNat 8217

/-- Worker of `splitSeps`: `acc` holds the characters of the token currently
being read, in reverse. -/
def splitSepsAux : Chars → Chars → List Chars
  | acc, [] => if acc = [] then [] else [acc.reverse]
  | acc, c :: rest =>
    if isSepChar c then
      if acc = [] then splitSepsAux [] rest
      else acc.reverse :: splitSepsAux [] rest
    else splitSepsAux (c :: acc) rest

/-- Split a character list on runs of separator characters, dropping empty
pieces. -/
def splitSeps (l : Chars) : List Chars := splitSepsAux [] l

/-- The `tokenize`: lowercase, strip apostrophes, split on separators, drop empty
tokens (the `filter` is subsumed by `splitSeps`, which never emits an empty
piece). -/
def tokenize (x : String) : List Chars :=
  splitSeps ((lowerChars x.data).filter (fun c => ¬ isApostrophe c))

/-- The `NOISE_WORDS`: words too generic to be useful for matching. -/
def noiseWords : List Chars :=
  [ cs "the", cs "de", cs "del", cs "la", cs "las", cs "los", cs "and",
    cs "by", cs "of", cs "no", cs "a", cs "el",
    cs "cigar", cs "cigars", cs "toro", cs "robusto", cs "churchill",
    cs "corona", cs "gordo", cs "lancero",
    cs "belicoso", cs "torpedo", cs "perfecto", cs "petit", cs "double",
    cs "gran", cs "grande" ]

/-- The `NOISE_WORDS.has t`. -/
def isNoise (t : Chars) : Bool := noiseWords.contains t

/-- Purely numeric token (`/^\d+$/`). -/
def isNumericTok (t : Chars) : Bool := t ≠ [] && t.all (fun c => c.isDigit)

/-- Pairings of a cigar. -/
structure Pairings where
  alcoholic : List String
  nonAlcoholic : List String
deriving DecidableEq

/-- The `CigarRecommendation`: candidate recommendation produced by the model. -/
structure CigarRecommendation where
  name : String
  brand : String
  origin : String
  wrapper : String
  body : String
  strength : String
  price : String
  time : String
  description : String
  tastingNotes : List String
  pairings : Pairings
deriving DecidableEq

/-- Catalog entry of the authoritative inventory (`cigars.json` record). -/
structure CatalogEntry where
  id : String
  brand : String
  name : String
  origin : String
  wrapper : String
  body : String
  strength : String
  priceRange : String
  smokingTime : String
  description : String
  tastingNotes : List String
  pairings : Pairings
  inventoryCount : Nat
  imageUrl : Option String
  productUrl : Option String
  barcode : Option String
deriving DecidableEq

/-- Modelled from the spec: the repository reads its catalog from
`src/data/cigars.json`, a data file that is not part of the available sources
(only its readers and the admin CRUD route are).  The spec describes the
catalog as a sequence of Catalog Entries (§3) preloaded with twelve cigars,
and it and the README of the repository name four of them: the Arturo Fuente
Hemingway Short Story, the Padron 1964 Anniversary Maduro, the Liga Privada
No. 9 and the Davidoff Grand Cru.  The properties in §8 of the spec require entries
to carry media links (`imageUrl`/`productUrl`), so each modelled entry has
them. -/
def fuenteHemingway : CatalogEntry :=
  { id := "1", brand := "Arturo Fuente", name := "Hemingway Short Story",
    origin := "Dominican Republic", wrapper := "Cameroon", body := "Medium",
    strength := "Mild-Medium", priceRange := "$8-$12",
    smokingTime := "30-45min",
    description := "A beloved short figurado with Cameroon sweetness.",
    tastingNotes := [ "cedar", "sweet spice", "coffee" ],
    pairings := { alcoholic := [ "bourbon" ], nonAlcoholic := [ "coffee" ] },
    inventoryCount := 10,
    imageUrl := some "/images/hemingway-short-story.jpg",
    productUrl := some "https://store.example.com/hemingway-short-story",
    barcode := some "850001" }

/-- Modelled from the spec: see `fuenteHemingway`.  The Padron 1964
Anniversary Maduro entry named by §8 of the spec and the README. -/
def padron1964 : CatalogEntry :=
  { id := "2", brand := "Padron", name := "1964 Anniversary Maduro",
    origin := "Nicaragua", wrapper := "Maduro", body := "Full",
    strength := "Medium-Full", priceRange := "$15-$20",
    smokingTime := "60-90min",
    description := "Box-pressed anniversary blend with deep cocoa notes.",
    tastingNotes := [ "cocoa", "coffee", "pepper" ],
    pairings := { alcoholic := [ "rum" ], nonAlcoholic := [ "espresso" ] },
    inventoryCount := 12,
    imageUrl := some "/images/padron-1964-maduro.jpg",
    productUrl := some "https://store.example.com/padron-1964-maduro",
    barcode := some "850002" }

/-- Modelled from the spec: see `fuenteHemingway`.  The Liga Privada No. 9
entry named by the README. -/
def ligaNo9 : CatalogEntry :=
  { id := "3", brand := "Liga Privada", name := "No. 9",
    origin := "Nicaragua", wrapper := "Connecticut Broadleaf", body := "Full",
    strength := "Full", priceRange := "$14-$18", smokingTime := "60-90min",
    description := "Dark, oily flagship blend from Drew Estate.",
    tastingNotes := [ "espresso", "dark chocolate", "earth" ],
    pairings := { alcoholic := [ "stout" ], nonAlcoholic := [ "cold brew" ] },
    inventoryCount := 8,
    imageUrl := some "/images/liga-privada-no-9.jpg",
    productUrl := some "https://store.example.com/liga-privada-no-9",
    barcode := some "850003" }

/-- Modelled from the spec: see `fuenteHemingway`.  The Davidoff Grand Cru
entry named by the README. -/
def davidoffGrandCru : CatalogEntry :=
  { id := "4", brand := "Davidoff", name := "Grand Cru",
    origin := "Dominican Republic", wrapper := "Connecticut", body := "Medium",
    strength := "Mild-Medium", priceRange := "$18-$24",
    smokingTime := "45-60min",
    description := "Elegant, creamy Connecticut-wrapped classic.",
    tastingNotes := [ "cream", "cedar", "almond" ],
    pairings := { alcoholic := [ "champagne" ], nonAlcoholic := [ "tea" ] },
    inventoryCount := 6,
    imageUrl := some "/images/davidoff-grand-cru.jpg",
    productUrl := some "https://store.example.com/davidoff-grand-cru",
    barcode := some "850004" }

/-- Modelled from the spec: the catalog (`cigarsData.cigars`).  See
`fuenteHemingway` for why it is modelled rather than read from source. -/
def cigarsCatalog : List CatalogEntry :=
  [ fuenteHemingway, padron1964, ligaNo9, davidoffGrandCru ]

/-- The tokens of a catalog entry seen by the matcher (brand tokens then name
tokens). -/
def entryTokens (c : CatalogEntry) : List Chars :=
  tokenize c.brand ++ tokenize c.name

/-- The deduplicated combined query-token sequence of `findInventoryMatch`
(brand tokens first, then name tokens that do not repeat a brand token), for
an already normalized query. -/
def queryTokens (queryName queryBrand : Chars) : List Chars :=
  let nameTokens := tokenize (String.mk queryName)
  let brandTokens := tokenize (String.mk queryBrand)
  brandTokens ++ nameTokens.filter (fun t => ¬ brandTokens.contains t)

/-- The composite string `entryFull = brand + " " + name` of an entry,
lowercased. -/
def entryComposite (c : CatalogEntry) : Chars :=
  lowerChars c.brand.data ++ [' '] ++ lowerChars c.name.data

/-- The composite query string of `findInventoryMatch` for an already
normalized query (the bare name when the brand is empty). -/
def queryCompositeC (queryName queryBrand : Chars) : Chars :=
  if queryBrand ≠ [] then queryBrand ++ [' '] ++ queryName else queryName

/-- The composite query string for raw query parts. -/
def queryComposite (cigarName brandName : String) : Chars :=
  queryCompositeC (normQ cigarName) (normQ brandName)

/-- Weight of one matched query token in `findInventoryMatch`: +30 when purely
numeric, +20 when of length ≥ 6, else +10. -/
def tokenWeight (t : Chars) : Nat :=
  if isNumericTok t then 30 else if t.length ≥ 6 then 20 else 10

/-- Per-entry score of the loop body of `findInventoryMatch` for an already
normalized (lowercased, trimmed) query.  The source updates a running
`bestScore` with `continue` after the exact / near-exact branches; that is
equivalent to computing this per-entry score and folding a strict maximum
(both branches and the token branch update only on a strictly greater
score). -/
def scoreEntry (queryName queryBrand : Chars) (c : CatalogEntry) : Nat :=
  let brandTokens := tokenize (String.mk queryBrand)
  let allQueryTokens := queryTokens queryName queryBrand
  let cName := lowerChars c.name.data
  let cBrand := lowerChars c.brand.data
  let cFull := entryComposite c
  let qFull := queryCompositeC queryName queryBrand
  if cFull = qFull ∨ cName = queryName then 100
  else if cFull = queryName ∨ qFull = cFull then 98
  else
    let cBrandTokens := tokenize c.brand
    let cAllTokens := entryTokens c
    let brandMatch := queryBrand ≠ [] ∧
      (cBrand = queryBrand ∨ subStr queryBrand cBrand ∨
       subStr cBrand queryBrand ∨
       cBrandTokens.any (fun bt => brandTokens.contains bt))
    let matched := allQueryTokens.filter
      (fun qt => ¬ isNoise qt ∧ cAllTokens.contains qt)
    let matchWeight := (matched.map tokenWeight).sum
    let nonBrandMatches := matched.filter (fun m => ¬ brandTokens.contains m)
    let base :=
      if brandMatch ∧ nonBrandMatches.length ≥ 1 then 20 + matchWeight
      else if nonBrandMatches.length ≥ 2 then 10 + matchWeight
      else 0
    if base = 0 then 0
    else base +
      (if subStr cName queryName ∨ subStr queryName cName then 15 else 0) +
      (if subStr cFull qFull ∨ subStr qFull cFull then 10 else 0)

/-- The loop of `findInventoryMatch`: fold the strict-maximum update
`if (score > bestScore) { bestScore = score; bestMatch = c }` over the
catalog. -/
def findBest (entries : List CatalogEntry) (queryName queryBrand : Chars) :
    Option CatalogEntry × Nat :=
  entries.foldl
    (fun acc c =>
      let s := scoreEntry queryName queryBrand c
      if s > acc.2 then (some c, s) else acc)
    (none, 0)

/-- The `findInventoryMatch(cigarName, brandName?)`: normalize the query, score
every catalog entry, return the best entry when the best score reaches the
acceptance floor 25 (an absent JavaScript `brandName` is indistinguishable
from `""` after lowercasing, trimming and the empty-string fallback, so the brand
parameter is a plain string here). -/
def findInventoryMatch (cigarName brandName : String) : Option CatalogEntry :=
  let best := findBest cigarsCatalog (normQ cigarName) (normQ brandName)
  if best.2 ≥ 25 then best.1 else none

/-- The best score reached by the loop of `findInventoryMatch` for a query. -/
def bestScoreFor (cigarName brandName : String) : Nat :=
  (findBest cigarsCatalog (normQ cigarName) (normQ brandName)).2

/-- JavaScript string truthiness for `a || b` on strings: `""` is falsy. -/
def orElseStr (a b : String) : String := if a ≠ "" then a else b

/-- The `v || undefined` on an optional string field: an absent or empty string
becomes `none`. -/
def optTruthy : Option String → Option String
  | none => none
  | some s => if s ≠ "" then some s else none

/-- Truthiness of an optional string (`!!v`). -/
def isTruthyOpt (o : Option String) : Bool :=
  match o with
  | none => false
  | some s => s ≠ ""

/-- Display cigar: a candidate recommendation extended with the catalog media
links picked up during enrichment. -/
structure EnrichedCigar where
  name : String
  brand : String
  origin : String
  wrapper : String
  body : String
  strength : String
  price : String
  time : String
  description : String
  tastingNotes : List String
  pairings : Pairings
  productUrl : Option String
  imageUrl : Option String
deriving DecidableEq

/-- The `enrichWithInventoryData` applied to one candidate. -/
def enrichOne (cigar : CigarRecommendation) : EnrichedCigar :=
  match findInventoryMatch cigar.name cigar.brand with
  | none =>
    { name := cigar.name, brand := cigar.brand, origin := cigar.origin,
      wrapper := cigar.wrapper, body := cigar.body,
      strength := cigar.strength, price := cigar.price, time := cigar.time,
      description := cigar.description, tastingNotes := cigar.tastingNotes,
      pairings := cigar.pairings, productUrl := none, imageUrl := none }
  | some inv =>
    { name := inv.brand ++ " " ++ inv.name,
      brand := inv.brand,
      origin := orElseStr inv.origin cigar.origin,
      wrapper := orElseStr inv.wrapper cigar.wrapper,
      body := orElseStr inv.body cigar.body,
      strength := orElseStr inv.strength cigar.strength,
      price := orElseStr inv.priceRange cigar.price,
      time := orElseStr inv.smokingTime cigar.time,
      description := orElseStr inv.description cigar.description,
      tastingNotes :=
        if inv.tastingNotes ≠ [] then inv.tastingNotes
        else cigar.tastingNotes,
      pairings :=
        if inv.pairings.alcoholic ≠ [] ∨ inv.pairings.nonAlcoholic ≠ [] then
          inv.pairings
        else cigar.pairings,
      productUrl := optTruthy inv.productUrl,
      imageUrl := optTruthy inv.imageUrl }

/-- The `enrichWithInventoryData`: replace model-guessed card data with
authoritative inventory data (field-by-field, falling back to the candidate
value when the catalog field is empty). -/
def enrichWithInventoryData (cigars : List CigarRecommendation) :
    List EnrichedCigar := cigars.map enrichOne

/-- The `filterCigarsByInventory`: keep only enriched cigars with a truthy
`productUrl` or `imageUrl`. -/
def filterCigarsByInventory (enriched : List EnrichedCigar) :
    List EnrichedCigar :=
  enriched.filter (fun c => isTruthyOpt c.productUrl || isTruthyOpt c.imageUrl)

/-!
Hand-compiled JavaScript regular expressions.

Every pattern used by the query extractor is compiled to a function on
character lists.  A partial match state is a list of possible remainders in
backtracking priority order (leftmost alternative first, greedy/lazy
quantifier order preserved); sequencing is `List.flatMap`, so the enumeration
order is exactly the depth-first order of the regex engine.  `.` excludes
line terminators; the patterns are case-insensitive, which is modelled by
matching on the lowercased subject.
-/

/-- Consume a literal, returning the remainder. -/
def litRem (pat : Chars) (x : Chars) : Option Chars :=
  if pat.isPrefixOf x then some (x.drop pat.length) else none

/-- The regex `.` character class: anything but a line terminator. -/
def dotCh (c : Char) : Bool :=
  ¬ (c = Char.ofNat 10 ∨ c = Char.ofNat 13 ∨
     c = Char.ofNat 8232 ∨ c = Char.ofNat 8233)

/-- Remainders after `\s+` (one or more whitespace), longest match first. -/
def wsRems1 (x : Chars) : List Chars :=
  let n := (x.takeWhile isWs).length
  (List.range n).map (fun i => x.drop (n - i))

/-- Remainders after `\s*`, longest match first. -/
def wsRems0 (x : Chars) : List Chars :=
  let n := (x.takeWhile isWs).length
  (List.range (n + 1)).map (fun i => x.drop (n - i))

/-- Sequence a literal over a priority list of remainders. -/
def thenLit (rems : List Chars) (pat : Chars) : List Chars :=
  rems.filterMap (litRem pat)

/-- Sequence `\s+` over a priority list of remainders. -/
def thenWs1 (rems : List Chars) : List Chars := rems.flatMap wsRems1

/-- The `(?:the\s+)?`: optional "the" followed by whitespace (with-branch
first). -/
def optTheWs (x : Chars) : List Chars :=
  ((litRem (cs "the") x).toList.flatMap wsRems1) ++ [x]

/-- Worker of `lazyTermCapture`: `acc` is the reversed capture so far. -/
def lazyTermAux (isTerm : Char → Bool) (acc : Chars) : Chars → Option Chars
  | [] => some acc.reverse
  | r :: rs =>
    if isTerm r then some acc.reverse
    else if dotCh r then lazyTermAux isTerm (r :: acc) rs
    else none

/-- The `(.+?)(?:t₁|…|$)`: shortest non-empty capture of `.`-class characters
followed by a terminator character or the end of the subject. -/
def lazyTermCapture (isTerm : Char → Bool) : Chars → Option Chars
  | [] => none
  | c :: rest => if dotCh c then lazyTermAux isTerm [c] rest else none

/-- Worker of `lazyContCapture`; checks the continuation before growing. -/
def lazyContAux (cont : Chars → Bool) (acc : Chars) : Chars → Option Chars
  | [] => if cont [] then some acc.reverse else none
  | r :: rs =>
    if cont (r :: rs) then some acc.reverse
    else if dotCh r then lazyContAux cont (r :: acc) rs
    else none

/-- The `(.+?)` followed by an arbitrary continuation: shortest non-empty capture
of `.`-class characters whose remainder satisfies the continuation. -/
def lazyContCapture (cont : Chars → Bool) : Chars → Option Chars
  | [] => none
  | c :: rest => if dotCh c then lazyContAux cont [c] rest else none

/-- The `(.+)` at the end of a pattern: longest non-empty run of `.`-class
characters. -/
def greedyDotCapture (x : Chars) : Option Chars :=
  let t := x.takeWhile dotCh
  if t = [] then none else some t

/-- Leftmost-match scan: try the position matcher at every start position. -/
def scanS (f : Chars → Option Chars) : Chars → Option Chars
  | [] => f []
  | c :: rest => (f (c :: rest)).orElse (fun _ => scanS f rest)

/-- The straight apostrophe, kept out of string literals. -/
def apoC : Char := Char.ofNat 39

/-- Terminator class `(?:!|\.|,|$)` of the image-identification patterns. -/
def isIdTerm (c : Char) : Bool := c = '!' || c = '.' || c = ','

/-- Terminator class `(?:\?|$)`. -/
def isQTerm (c : Char) : Bool := c = '?'

/-- The `/tell\s+me\s+(?:about|more\s+about)\s+(?:the\s+)?(.+)/i` at one start
position. -/
def askPat1At (x : Chars) : Option Chars :=
  let afterMe := thenWs1 (thenLit (thenWs1 (thenLit [x] (cs "tell"))) (cs "me"))
  let afterAbout := afterMe.flatMap (fun r =>
    (litRem (cs "about") r).toList ++
    ((litRem (cs "more") r).toList.flatMap wsRems1).flatMap
      (fun r2 => (litRem (cs "about") r2).toList))
  ((thenWs1 afterAbout).flatMap optTheWs).findSome? greedyDotCapture

/-- Continuation `\s+like\?` of the second ask pattern. -/
def likeCont (x : Chars) : Bool :=
  (wsRems1 x).any (fun r => (cs "like?").isPrefixOf r)

/-- The second ask pattern (literal `what`, then apostrophe-s or `\s+is`,
then `\s+(?:the\s+)?(.+?)\s+like\?`, flag `i`) at one start position. -/
def askPat2At (x : Chars) : Option Chars :=
  let afterWhat := (litRem (cs "what") x).toList
  let afterIs := afterWhat.flatMap (fun r =>
    (litRem [apoC, 's'] r).toList ++
    (wsRems1 r).flatMap (fun r2 => (litRem (cs "is") r2).toList))
  ((thenWs1 afterIs).flatMap optTheWs).findSome? (lazyContCapture likeCont)

/-- The `/what\s+about\s+(?:the\s+)?(.+?)(?:\?|$)/i` at one start position. -/
def askPat3At (x : Chars) : Option Chars :=
  let pre := thenWs1 (thenLit (thenWs1 (thenLit [x] (cs "what"))) (cs "about"))
  (pre.flatMap optTheWs).findSome? (lazyTermCapture isQTerm)

/-- The `/(?:want\s+to\s+know|know\s+more)\s+about\s+(?:the\s+)?(.+)/i` at one
start position. -/
def askPat4At (x : Chars) : Option Chars :=
  let alt1 := thenLit (thenWs1 (thenLit (thenWs1 (thenLit [x] (cs "want")))
    (cs "to"))) (cs "know")
  let alt2 := thenLit (thenWs1 (thenLit [x] (cs "know"))) (cs "more")
  let pre := thenWs1 (thenLit (thenWs1 (alt1 ++ alt2)) (cs "about"))
  (pre.flatMap optTheWs).findSome? greedyDotCapture

/-- The `/do\s+you\s+have\s+(?:the\s+)?(.+?)(?:\?|$)/i` at one start position. -/
def askPat5At (x : Chars) : Option Chars :=
  let pre := thenWs1 (thenLit (thenWs1 (thenLit (thenWs1 (thenLit [x]
    (cs "do"))) (cs "you"))) (cs "have"))
  (pre.flatMap optTheWs).findSome? (lazyTermCapture isQTerm)

/-- The `/(?:show\s+me|get\s+me)\s+(?:the\s+)?(.+)/i` at one start position. -/
def askPat6At (x : Chars) : Option Chars :=
  let alt1 := thenLit (thenWs1 (thenLit [x] (cs "show"))) (cs "me")
  let alt2 := thenLit (thenWs1 (thenLit [x] (cs "get"))) (cs "me")
  ((thenWs1 (alt1 ++ alt2)).flatMap optTheWs).findSome? greedyDotCapture

/-- The `/tell\s+me\s+about\s+(.+)/i` at one start position. -/
def askPat7At (x : Chars) : Option Chars :=
  let pre := thenWs1 (thenLit (thenWs1 (thenLit (thenWs1 (thenLit [x]
    (cs "tell"))) (cs "me"))) (cs "about"))
  pre.findSome? greedyDotCapture

/-- The ordered `askPatterns` list of `findCigarFromUserMessage`. -/
def askPats : List (Chars → Option Chars) :=
  [ scanS askPat1At, scanS askPat2At, scanS askPat3At, scanS askPat4At,
    scanS askPat5At, scanS askPat6At, scanS askPat7At ]

/-- The query extracted from the (lowercased, trimmed) user message: the
first ask pattern whose match has a capture wins, otherwise the whole
message. -/
def extractedQuery (msg : Chars) : Chars :=
  match askPats.findSome? (fun p => p msg) with
  | some cap => trimChars cap
  | none => msg

/-- Per-entry `(matchCount, score)` of the loop of `findCigarFromUserMessage`
(weights differ from `findInventoryMatch`: distinctive length is ≥ 5 and the
brand bonus is +15). -/
def userScoreEntry (queryTokens : List Chars) (c : CatalogEntry) :
    Nat × Nat :=
  let cName := lowerChars c.name.data
  let cBrand := lowerChars c.brand.data
  let cFull := cBrand ++ [' '] ++ cName
  let cTokens := tokenize (String.mk cFull)
  let cBrandTokens := tokenize (String.mk cBrand)
  let matched := queryTokens.filter
    (fun qt => ¬ isNoise qt ∧ cTokens.contains qt)
  let matchWeight := (matched.map (fun qt =>
    if isNumericTok qt then 30 else if qt.length ≥ 5 then 20 else 10)).sum
  let brandInQuery := cBrandTokens.any (fun bt => queryTokens.contains bt)
  (matched.length, if brandInQuery then 15 + matchWeight else matchWeight)

/-- The loop of `findCigarFromUserMessage`: update on
`matchCount >= 1 && score > bestScore && score >= 25`. -/
def findUserBest (entries : List CatalogEntry)
    (queryTokens : List Chars) : Option CatalogEntry × Nat :=
  entries.foldl
    (fun acc c =>
      let ms := userScoreEntry queryTokens c
      if ms.1 ≥ 1 ∧ ms.2 > acc.2 ∧ ms.2 ≥ 25 then (some c, ms.2) else acc)
    (none, 0)

/-- The `CigarRecommendation` built from a matched catalog entry at the end
of `findCigarFromUserMessage` (`||` fallbacks for empty fields; the
`Array.isArray` and `pairings ||` guards are identities here because the
modelled catalog fields are total). -/
def recommendationOf (c : CatalogEntry) : CigarRecommendation :=
  { name := c.name, brand := c.brand,
    origin := orElseStr c.origin "",
    wrapper := orElseStr c.wrapper "",
    body := orElseStr c.body "Medium",
    strength := orElseStr c.strength "Medium",
    price := orElseStr c.priceRange "$0",
    time := orElseStr c.smokingTime "45-60min",
    description := orElseStr c.description "",
    tastingNotes := c.tastingNotes,
    pairings := c.pairings }

/-- The tokens of the whole (lowercased, trimmed) user message
(`tokenize(msg)`). -/
def userMsgTokens (userMessage : String) : List Chars :=
  tokenize (String.mk (trimChars (lowerChars userMessage.data)))

/-- The non-noise tokens of the query extracted from the user message
(`tokenize(query).filter(t => !NOISE_WORDS.has(t))`). -/
def userQueryTokens (userMessage : String) : List Chars :=
  (tokenize (String.mk (extractedQuery
    (trimChars (lowerChars userMessage.data))))).filter
    (fun t => ¬ isNoise t)

/-- The `findCigarFromUserMessage`: extract a cigar query from a user message and
resolve it against the catalog (guards: at least 2 message tokens, at least 1
non-noise query token). -/
def findCigarFromUserMessage (userMessage : String) :
    Option CigarRecommendation :=
  if (userMsgTokens userMessage).length < 2 then none
  else if (userQueryTokens userMessage).length < 1 then none
  else
    match (findUserBest cigarsCatalog (userQueryTokens userMessage)).1 with
    | none => none
    | some c => some (recommendationOf c)

/-- First image-identification pattern
(leading alternatives `I can (?:clearly )?see` and `this is`, an optional
`this is ` or apostrophised `it s `, an optional article, then a lazy capture)
at one start position. -/
def idPat1At (x : Chars) : Option Chars :=
  let lead := [ cs "i can clearly see", cs "i can see", cs "this is" ]
  let r1 := lead.flatMap (fun p => (litRem p x).toList)
  let r2 := thenLit r1 (cs " ")
  let r3 := r2.flatMap (fun r =>
    (litRem (cs "this is ") r).toList ++
    (litRem ((cs "it") ++ [apoC, 's', ' ']) r).toList ++ [r])
  let r4 := r3.flatMap (fun r =>
    (litRem (cs "a ") r).toList ++ (litRem (cs "an ") r).toList ++ [r])
  r4.findSome? (lazyTermCapture isIdTerm)

/-- Second image-identification pattern
`/(?:clearly |easily )?(?:identify|recognize) (?:this as|it as) (?:a |an )?(.+?)(?:!|\.|,|$)/i`
at one start position. -/
def idPat2At (x : Chars) : Option Chars :=
  let r1 := (litRem (cs "clearly ") x).toList ++
    (litRem (cs "easily ") x).toList ++ [x]
  let r2 := r1.flatMap (fun r =>
    (litRem (cs "identify") r).toList ++ (litRem (cs "recognize") r).toList)
  let r3 := thenLit r2 (cs " ")
  let r4 := r3.flatMap (fun r =>
    (litRem (cs "this as") r).toList ++ (litRem (cs "it as") r).toList)
  let r5 := thenLit r4 (cs " ")
  let r6 := r5.flatMap (fun r =>
    (litRem (cs "a ") r).toList ++ (litRem (cs "an ") r).toList ++ [r])
  r6.findSome? (lazyTermCapture isIdTerm)

/-- Third image-identification pattern
`/(?:ah,?|oh,?)?\s*(?:I can clearly see )?this is (?:a |an )?(.+?)(?:!|\.|,|$)/i`
at one start position. -/
def idPat3At (x : Chars) : Option Chars :=
  let r1 := (litRem (cs "ah,") x).toList ++ (litRem (cs "ah") x).toList ++
    (litRem (cs "oh,") x).toList ++ (litRem (cs "oh") x).toList ++ [x]
  let r2 := r1.flatMap wsRems0
  let r3 := r2.flatMap (fun r =>
    (litRem (cs "i can clearly see ") r).toList ++ [r])
  let r4 := thenLit r3 (cs "this is ")
  let r5 := r4.flatMap (fun r =>
    (litRem (cs "a ") r).toList ++ (litRem (cs "an ") r).toList ++ [r])
  r5.findSome? (lazyTermCapture isIdTerm)

/-- The anchored quote-stripping replace of the extractor: strip one pair of
surrounding double quotes when the whole query is quoted (on a single
line). -/
def stripQuotes (q : Chars) : Chars :=
  if q.length ≥ 2 ∧ q.head? = some '"' ∧ q.getLast? = some '"' ∧
      ((q.drop 1).dropLast.all dotCh) then (q.drop 1).dropLast
  else q

/-- The `findCigarFromImageMessage`: extract the cigar named in an image
identification sentence and resolve it through
`findCigarFromUserMessage("tell me about " + query)`. -/
def findCigarFromImageMessage (message : String) :
    Option CigarRecommendation :=
  let m := lowerChars message.data
  match (scanS idPat1At m).orElse (fun _ => (scanS idPat2At m).orElse
      (fun _ => scanS idPat3At m)) with
  | none => none
  | some cap =>
    let query := stripQuotes (trimChars cap)
    if query = [] ∨
        ((tokenize (String.mk query)).filter (fun t => ¬ isNoise t)).length
          < 1 then none
    else findCigarFromUserMessage ( "tell me about " ++ String.mk query)

/-- Case-insensitive literal (pattern given in lowercase). -/
def ciLit (pat : Chars) (x : Chars) : Option Chars :=
  if (x.take pat.length).map lowerChar = pat then some (x.drop pat.length)
  else none

/-- Consume one character of a class if present (`c?` in a pattern). -/
def optCh (p : Char → Bool) (x : Chars) : Chars :=
  match x with
  | [] => []
  | c :: rest => if p c then rest else c :: rest

/-- Consume a non-empty digit run (`\d+`), returning the remainder. -/
def digits1 (x : Chars) : Option Chars :=
  match x with
  | [] => none
  | c :: rest => if c.isDigit then some (rest.dropWhile Char.isDigit)
                 else none

/-- The digit run at the start of a list, as a natural number. -/
def digitsVal (x : Chars) : Nat :=
  (x.takeWhile Char.isDigit).foldl (fun n c => 10 * n + (c.toNat - 48)) 0

/-- ASCII word character for `\b` (letters, digits, underscore). -/
def isWordChar (c : Char) : Bool :=
  c.isDigit || ('a' ≤ lowerChar c ∧ lowerChar c ≤ 'z') || c = '_'

/-- The `^"\s*message\s*"\s*:\s*"`: strip a leading quoted `message` key echo
(first `replace` of `sanitizeMessage`). -/
def stripMsgKey (x : Chars) : Chars :=
  match litRem ['"'] x with
  | none => x
  | some r1 =>
    match ciLit (cs "message") (r1.dropWhile isWs) with
    | none => x
    | some r2 =>
      match litRem ['"'] (r2.dropWhile isWs) with
      | none => x
      | some r3 =>
        match litRem [':'] (r3.dropWhile isWs) with
        | none => x
        | some r4 =>
          match litRem ['"'] (r4.dropWhile isWs) with
          | none => x
          | some r5 => r5

/-- One match of `/\s*[\[\({]?\s*"?confidence"?\s*:\s*\d+\s*%?[\]\)}]?/i` at a
position, returning the remainder after the (non-empty) match. -/
def confAnnotAt (x : Chars) : Option Chars :=
  let x1 := x.dropWhile isWs
  let x2 := optCh (fun c => c = '[' || c = '(' || c = '{') x1
  let x3 := x2.dropWhile isWs
  let x4 := optCh (fun c => c = '"') x3
  (ciLit (cs "confidence") x4).bind (fun x5 =>
    let x6 := optCh (fun c => c = '"') x5
    let x7 := x6.dropWhile isWs
    (litRem [':'] x7).bind (fun x8 =>
      (digits1 (x8.dropWhile isWs)).map (fun x9 =>
        let x10 := x9.dropWhile isWs
        let x11 := optCh (fun c => c = '%') x10
        optCh (fun c => c = ']' || c = ')' || c = '}') x11)))

/-- One match of `/\bconfidence\s*:\s*\d+\s*%?\.?/i`: the word boundary is
checked against the preceding character by the caller. -/
def confWordAt (x : Chars) : Option Chars :=
  (ciLit (cs "confidence") x).bind (fun x1 =>
    (litRem [':'] (x1.dropWhile isWs)).bind (fun x2 =>
      (digits1 (x2.dropWhile isWs)).map (fun x3 =>
        let x4 := x3.dropWhile isWs
        let x5 := optCh (fun c => c = '%') x4
        optCh (fun c => c = '.') x5)))

/-- One match of `/\s*Confidence:\s*\d+%?\.?/i` at a position. -/
def confColonAt (x : Chars) : Option Chars :=
  (ciLit (cs "confidence:") (x.dropWhile isWs)).bind (fun x1 =>
    (digits1 (x1.dropWhile isWs)).map (fun x2 =>
      optCh (fun c => c = '.') (optCh (fun c => c = '%') x2)))

/-- Delete every match of a pattern, scanning left to right (`replace` with
the `g` flag and an empty replacement).  Every pattern used here consumes at
least one character, so fuel `x.length + 1` never runs out. -/
def globalStrip (matchAt : Chars → Option Chars) :
    Nat → Chars → Chars
  | 0, x => x
  | _, [] => []
  | fuel + 1, c :: rest =>
    match matchAt (c :: rest) with
    | some rem => globalStrip matchAt fuel rem
    | none => c :: globalStrip matchAt fuel rest

/-- The `globalStrip` for a pattern with a leading `\b`: `prev` is the character
preceding the current position (`none` at the start of the subject). -/
def globalStripB (matchAt : Chars → Option Chars) :
    Nat → Option Char → Chars → Chars
  | 0, _, x => x
  | _, _, [] => []
  | fuel + 1, prev, c :: rest =>
    let boundary := match prev with
      | none => true
      | some p => ¬ isWordChar p
    match if boundary then matchAt (c :: rest) else none with
    | some rem =>
      let consumed := (c :: rest).take ((c :: rest).length - rem.length)
      globalStripB matchAt fuel (consumed.getLast?) rem
    | none => c :: globalStripB matchAt fuel (some c) rest

/-- The `/\s{2,}/g → " "`: collapse every run of two or more whitespace
characters into a single space. -/
def collapseWs : Nat → Chars → Chars
  | 0, x => x
  | _, [] => []
  | fuel + 1, c :: rest =>
    if isWs c ∧ isWs (rest.headD 'a')
    then ' ' :: collapseWs fuel (rest.dropWhile isWs)
    else c :: collapseWs fuel rest

/-- The `/\\"/g → '"'`: unescape escaped double quotes. -/
def unescQuotes : Chars → Chars
  | [] => []
  | a :: [] => [a]
  | a :: b :: rest =>
    if a = '\\' ∧ b = '"' then '"' :: unescQuotes rest
    else a :: unescQuotes (b :: rest)

/-- The `sanitizeMessage`: strip stray confidence annotations and quoting
artifacts from a model message so users only see conversational text. -/
def sanitizeMessage (message : String) : String :=
  let x0 := message.data
  let x1 := stripMsgKey x0
  let x2 := globalStrip confAnnotAt (x1.length + 1) x1
  let x3 := globalStripB confWordAt (x2.length + 1) none x2
  let x4 := globalStrip confColonAt (x3.length + 1) x3
  let x5 := collapseWs (x4.length + 1) x4
  let out := trimChars (unescQuotes x5)
  let out2 :=
    if out ≠ [] ∧ out.getLastD 'a' = '"' ∧ ¬ out.headD 'a' = '"'
    then out.dropLast else out
  String.mk out2

/-- Result of `parseModelResponse`. -/
structure ParsedResponse where
  message : String
  cigars : List CigarRecommendation
  confidence : Option Int
deriving DecidableEq

/-- Result of `parseImageResponse` (confidence always present, defaulted). -/
structure ImageResult where
  message : String
  cigars : List CigarRecommendation
  confidence : Int
deriving DecidableEq

/-- The confidence-guardrail stage of `parseImageResponse`, acting on an
already parsed response: default the confidence to 50, sanitize the message,
backfill a cigar from the prose when the structured list is empty (raising a
sub-threshold confidence to 80 on success), and return the clarification
shape when the confidence is below 75 and no cigar is present. -/
def imageGuard (parsed : ParsedResponse) : ImageResult :=
  let confidence0 : Int := parsed.confidence.getD 50
  let message := sanitizeMessage parsed.message
  let step :=
    if parsed.cigars = [] then
      match findCigarFromImageMessage parsed.message with
      | some backfill =>
        (([backfill] : List CigarRecommendation),
         if confidence0 < 75 then (80 : Int) else confidence0)
      | none => ([], confidence0)
    else (parsed.cigars, confidence0)
  if step.2 < 75 ∧ step.1 = [] then
    { message := message, cigars := [], confidence := step.2 }
  else { message := message, cigars := step.1, confidence := step.2 }

/-- JSON values (`JSON.parse` output).  Numbers are modelled by their
integral part: every number the engine inspects (`confidence`) is an
integer. -/
inductive Json where
  | jnull : Json
  | jbool : Bool → Json
  | jnum : Int → Json
  | jstr : String → Json
  | jarr : List Json → Json
  | jobj : List (String × Json) → Json

/-- JSON whitespace (space, tab, line feed, carriage return). -/
def isJWs (c : Char) : Bool :=
  c = ' ' || c = Char.ofNat 9 || c = Char.ofNat 10 || c = Char.ofNat 13

/-- Skip JSON whitespace. -/
def jWs (x : Chars) : Chars := x.dropWhile isJWs

/-- Value of a hexadecimal digit, if any. -/
def hexVal (c : Char) : Option Nat :=
  if c.isDigit then some (c.toNat - 48)
  else if 'a' ≤ c ∧ c ≤ 'f' then some (c.toNat - 87)
  else if 'A' ≤ c ∧ c ≤ 'F' then some (c.toNat - 55)
  else none

/-- Decode the digits of a JSON string body (after the opening quote),
handling the escape sequences of the JSON grammar; rejects unescaped control
characters like `JSON.parse`. -/
def jString : Nat → Chars → Option (Chars × Chars)
  | 0, _ => none
  | _, [] => none
  | fuel + 1, c :: rest =>
    if c = '"' then some ([], rest)
    else if c = '\\' then
      match rest with
      | [] => none
      | e :: rest2 =>
        let simple : Option Char :=
          if e = '"' then some '"'
          else if e = '\\' then some '\\'
          else if e = '/' then some '/'
          else if e = 'b' then some (Char.ofNat 8)
          else if e = 'f' then some (Char.ofNat 12)
          else if e = 'n' then some (Char.ofNat 10)
          else if e = 'r' then some (Char.ofNat 13)
          else if e = 't' then some (Char.ofNat 9)
          else none
        match simple with
        | some d =>
          (jString fuel rest2).map (fun p => (d :: p.1, p.2))
        | none =>
          if e = 'u' then
            match rest2 with
            | h1 :: h2 :: h3 :: h4 :: rest3 =>
              match hexVal h1, hexVal h2, hexVal h3, hexVal h4 with
              | some v1, some v2, some v3, some v4 =>
                let d := Char.ofNat (((v1 * 16 + v2) * 16 + v3) * 16 + v4)
                (jString fuel rest3).map (fun p => (d :: p.1, p.2))
              | _, _, _, _ => none
            | _ => none
          else none
    else if c.toNat < 32 then none
    else (jString fuel rest).map (fun p => (c :: p.1, p.2))

/-- Consume a JSON exponent (sign and digits) after `e`/`E`, or back off to
the position before the `e`/`E`. -/
def expRest (r whole : Chars) : Chars :=
  let r2 := match r with
    | '+' :: t => t
    | '-' :: t => t
    | t => t
  if (r2.headD ' ').isDigit then r2.dropWhile Char.isDigit else whole

/-- Parse a JSON number, returning its integral part (fraction and exponent
digits are consumed and discarded; see `Json`). -/
def jNumber (x : Chars) : Option (Json × Chars) :=
  let (neg, x1) := match x with
    | '-' :: r => (true, r)
    | r => (false, r)
  let intPart? : Option (Nat × Chars) :=
    match x1 with
    | [] => none
    | c :: rest =>
      if c = '0' then some (0, rest)
      else if c.isDigit then
        some (digitsVal (c :: rest), rest.dropWhile Char.isDigit)
      else none
  intPart?.bind (fun p =>
    let x2 := match p.2 with
      | '.' :: r => if (r.headD ' ').isDigit then r.dropWhile Char.isDigit
                    else '.' :: r
      | r => r
    let x3 := match x2 with
      | 'e' :: r => expRest r x2
      | 'E' :: r => expRest r x2
      | r => r
    some (Json.jnum (if neg then -(p.1 : Int) else (p.1 : Int)), x3))

mutual

/-- Parse one JSON value (strict JSON grammar, like `JSON.parse`). -/
def jValue : Nat → Chars → Option (Json × Chars)
  | 0, _ => none
  | _, [] => none
  | fuel + 1, c :: rest =>
    if c = '{' then
      let r := jWs rest
      if r.headD ' ' = '}' then some (Json.jobj [], r.tail)
      else
        (jMembers fuel r).bind (fun p =>
          if p.2.headD ' ' = '}' then some (Json.jobj p.1, p.2.tail)
          else none)
    else if c = '[' then
      let r := jWs rest
      if r.headD ' ' = ']' then some (Json.jarr [], r.tail)
      else
        (jElems fuel r).bind (fun p =>
          if p.2.headD ' ' = ']' then some (Json.jarr p.1, p.2.tail)
          else none)
    else if c = '"' then
      (jString fuel rest).map (fun p => (Json.jstr (String.mk p.1), p.2))
    else if c = 't' then
      (litRem (cs "rue") rest).map (fun r => (Json.jbool true, r))
    else if c = 'f' then
      (litRem (cs "alse") rest).map (fun r => (Json.jbool false, r))
    else if c = 'n' then
      (litRem (cs "ull") rest).map (fun r => (Json.jnull, r))
    else jNumber (c :: rest)

/-- Parse the members of a JSON object (positioned at the first key). -/
def jMembers : Nat → Chars → Option (List (String × Json) × Chars)
  | 0, _ => none
  | fuel + 1, x =>
    match x with
    | [] => none
    | c :: rest =>
      if c = '"' then
        (jString fuel rest).bind (fun kp =>
          let r2 := jWs kp.2
          if r2.headD ' ' = ':' then
            (jValue fuel (jWs r2.tail)).bind (fun vp =>
              let r3 := jWs vp.2
              if r3.headD ' ' = ',' then
                (jMembers fuel (jWs r3.tail)).map (fun mp =>
                  ((String.mk kp.1, vp.1) :: mp.1, mp.2))
              else some ([(String.mk kp.1, vp.1)], r3))
          else none)
      else none

/-- Parse the elements of a JSON array (positioned at the first element). -/
def jElems : Nat → Chars → Option (List Json × Chars)
  | 0, _ => none
  | fuel + 1, x =>
    (jValue fuel x).bind (fun vp =>
      let r2 := jWs vp.2
      if r2.headD ' ' = ',' then
        (jElems fuel (jWs r2.tail)).map (fun ep => (vp.1 :: ep.1, ep.2))
      else some ([vp.1], r2))

end

/-- The `JSON.parse`: a single value surrounded by whitespace, whole input
consumed. -/
def jParse (x : Chars) : Option Json :=
  (jValue (x.length + 1) (jWs x)).bind (fun p =>
    if jWs p.2 = [] then some p.1 else none)

/-- Field lookup on a parsed object: the last occurrence of a key wins, as
with JavaScript object construction. -/
def jLookup (fields : List (String × Json)) (key : String) : Option Json :=
  (fields.reverse.find? (fun kv => kv.1 = key)).map (fun kv => kv.2)

/-- String field access with the JavaScript-undefined and non-string cases
collapsed to `""` (the engine only ever reads these fields as strings). -/
def getStrD (fields : List (String × Json)) (key : String) : String :=
  match jLookup fields key with
  | some (Json.jstr s) => s
  | _ => ""

/-- The string members of a JSON array field. -/
def getStrList (fields : List (String × Json)) (key : String) : List String :=
  match jLookup fields key with
  | some (Json.jarr es) =>
    es.filterMap (fun e => match e with
      | Json.jstr s => some s
      | _ => none)
  | _ => []

/-- Read one member of the parsed `cigars` array as a candidate
recommendation.  The source passes the parsed objects through untyped; the
record fields mirror its `CigarRecommendation` interface, with absent fields
modelled as `""`/`[]`. -/
def decodeCigar (j : Json) : CigarRecommendation :=
  match j with
  | Json.jobj fs =>
    { name := getStrD fs "name", brand := getStrD fs "brand",
      origin := getStrD fs "origin", wrapper := getStrD fs "wrapper",
      body := getStrD fs "body", strength := getStrD fs "strength",
      price := getStrD fs "price", time := getStrD fs "time",
      description := getStrD fs "description",
      tastingNotes := getStrList fs "tastingNotes",
      pairings :=
        match jLookup fs "pairings" with
        | some (Json.jobj ps) =>
          { alcoholic := getStrList ps "alcoholic",
            nonAlcoholic := getStrList ps "nonAlcoholic" }
        | _ => { alcoholic := [], nonAlcoholic := [] } }
  | _ =>
    { name := "", brand := "", origin := "", wrapper := "", body := "",
      strength := "", price := "", time := "", description := "",
      tastingNotes := [], pairings := { alcoholic := [], nonAlcoholic := [] } }

/-- The `/^```(?:json)?\s*/i`: strip a leading markdown code fence. -/
def stripLeadFence (x : Chars) : Chars :=
  match litRem (cs "```") x with
  | none => x
  | some r =>
    let r2 := match ciLit (cs "json") r with
      | some r2 => r2
      | none => r
    r2.dropWhile isWs

/-- The `/```\s*$/i` with an empty replacement: cut the subject at the leftmost
fence that is followed only by whitespace. -/
def stripTrailFence (x : Chars) : Chars :=
  match (List.range x.length).find? (fun i =>
      (cs "```").isPrefixOf (x.drop i) ∧ ((x.drop i).drop 3).all isWs) with
  | some i => x.take i
  | none => x

/-- The `cleaned` value of `parseModelResponse`: fences stripped, then
trimmed. -/
def cleanResponse (x : Chars) : Chars :=
  trimChars (stripTrailFence (stripLeadFence x))

/-- The `cleaned.match(/\{[\s\S]*\}/)`: the span from the first `\x7b` to the
last `\x7d`, when the former precedes the latter. -/
def jsonSpan (x : Chars) : Option Chars :=
  let opens := (List.range x.length).filter (fun k => x.getD k ' ' = '{')
  let closes := (List.range x.length).filter (fun k => x.getD k ' ' = '}')
  match opens.head?, closes.getLast? with
  | some i, some j => if i < j then some ((x.take (j + 1)).drop i) else none
  | _, _ => none

/-- Greedy `((?:[^"\\]|\\.)*)` capture: everything up to the first unescaped
quote (an escape may not hide a line terminator). -/
def escRun : Chars → Chars
  | [] => []
  | a :: [] => if a = '"' ∨ a = '\\' then [] else [a]
  | a :: b :: rest =>
    if a = '"' then []
    else if a = '\\' then
      if dotCh b then a :: b :: escRun rest else []
    else a :: escRun (b :: rest)

/-- One match of `/"confidence"\s*:\s*(\d+)/` at a position, returning the
captured number. -/
def confCapAt (x : Chars) : Option Chars :=
  (litRem (cs "\"confidence\"") x).bind (fun x1 =>
    (litRem [':'] (x1.dropWhile isWs)).bind (fun x2 =>
      let x3 := x2.dropWhile isWs
      let ds := x3.takeWhile Char.isDigit
      if ds = [] then none else some ds))

/-- One match of `/"message"\s*:\s*"((?:[^"\\]|\\.)*)/` at a position,
returning the capture. -/
def msgCapAt (x : Chars) : Option Chars :=
  (litRem (cs "\"message\"") x).bind (fun x1 =>
    (litRem [':'] (x1.dropWhile isWs)).bind (fun x2 =>
      (litRem ['"'] (x2.dropWhile isWs)).map escRun))

/-- One match of
`/"cigars"\s*:\s*\[\s*\{\s*"name"\s*:\s*"((?:[^"\\]|\\.)*)/` at a position,
returning the capture. -/
def cigarCapAt (x : Chars) : Option Chars :=
  (litRem (cs "\"cigars\"") x).bind (fun x1 =>
    (litRem [':'] (x1.dropWhile isWs)).bind (fun x2 =>
      (litRem ['['] (x2.dropWhile isWs)).bind (fun x3 =>
        (litRem ['{'] (x3.dropWhile isWs)).bind (fun x4 =>
          (litRem (cs "\"name\"") (x4.dropWhile isWs)).bind (fun x5 =>
            (litRem [':'] (x5.dropWhile isWs)).bind (fun x6 =>
              (litRem ['"'] (x6.dropWhile isWs)).map escRun))))))

/-- The regex-extraction fallback of `parseModelResponse` for truncated or
malformed JSON. -/
def regexFallback (cleaned : Chars) : ParsedResponse :=
  let conf : Option Int := (scanS confCapAt cleaned).map
    (fun ds => (digitsVal ds : Int))
  let msg : String := match scanS msgCapAt cleaned with
    | some cap => String.mk (unescQuotes cap)
    | none => ""
  let cigars : List CigarRecommendation :=
    match scanS cigarCapAt cleaned with
    | some cap =>
      let nm := String.mk (trimChars (unescQuotes cap))
      match findCigarFromUserMessage ( "tell me about " ++ nm) with
      | some backfill => [backfill]
      | none => []
    | none => []
  { message := msg, cigars := cigars, confidence := conf }

/-- The `parseModelResponse`: strip code fences, locate and strictly parse a JSON
object, and fall back to targeted regex extraction when that fails. -/
def parseModelResponse (response : String) : ParsedResponse :=
  let cleaned := cleanResponse response.data
  match jsonSpan cleaned with
  | some span =>
    match jParse span with
    | some (Json.jobj fs) =>
      { message := (match jLookup fs "message" with
          | some (Json.jstr s) => s
          | _ => ""),
        cigars := (match jLookup fs "cigars" with
          | some (Json.jarr es) => es.map decodeCigar
          | _ => []),
        confidence := (match jLookup fs "confidence" with
          | some (Json.jnum n) => some n
          | _ => none) }
    | _ => regexFallback cleaned
  | none => regexFallback cleaned

/-- The `parseImageResponse`: defensive parse plus the confidence guardrail. -/
def parseImageResponse (response : String) : ImageResult :=
  imageGuard (parseModelResponse response)

/-- A serialized chat API response for the image flow. -/
structure ChatResponse where
  message : String
  cigars : List EnrichedCigar
  confidence : Int
deriving DecidableEq

/-- The straight apostrophe as a one-character string. -/
def apoS : String := String.mk [apoC]

/-- The clarification message returned when every identified cigar is dropped
by inventory filtering. -/
def notInInventoryMsg : String :=
  "I" ++ apoS ++ "m not certain that" ++ apoS ++
  "s in our inventory. Can you tell me what text you see on the band? Or describe the colors?"

/-- The tail of the image branch of `POST`: parse with the guardrail, enrich,
filter to inventory, and cap the surfaced confidence at 74 when the parsed
cigars were all dropped. -/
def imageFlow (response : String) : ChatResponse :=
  let parsed := parseImageResponse response
  let cigars := filterCigarsByInventory (enrichWithInventoryData parsed.cigars)
  if cigars = [] ∧ parsed.cigars ≠ [] then
    { message := notInInventoryMsg, cigars := [],
      confidence := min parsed.confidence 74 }
  else
    { message := parsed.message, cigars := cigars.take 2,
      confidence := parsed.confidence }

/-- The per-entry scores of a query over the whole catalog. -/
def catalogScores (cigarName brandName : String) : List Nat :=
  cigarsCatalog.map (scoreEntry (normQ cigarName) (normQ brandName))

/-- The maximum per-entry score of a query over the whole catalog. -/
def maxScoreFor (cigarName brandName : String) : Nat :=
  (catalogScores cigarName brandName).foldr max 0

/-- Modelled from the spec: `candidateFrom(c)` of §8, the candidate
recommendation built from the own fields of a catalog entry (same shape as a
Catalog Entry minus `id`/`inventoryCount`, with `price`/`time` holding the
`priceRange`/`smokingTime` of the entry, §3). -/
def candidateFrom (c : CatalogEntry) : CigarRecommendation :=
  { name := c.name, brand := c.brand, origin := c.origin,
    wrapper := c.wrapper, body := c.body, strength := c.strength,
    price := c.priceRange, time := c.smokingTime,
    description := c.description, tastingNotes := c.tastingNotes,
    pairings := c.pairings }

/-- Modelled from the spec: `displayFrom(c)` of §8, the Display Cigar derived
from a catalog entry: its authoritative descriptive fields, the brand-prefixed
display name, and its media links (§4.5). -/
def displayFrom (c : CatalogEntry) : EnrichedCigar :=
  { name := c.brand ++ " " ++ c.name, brand := c.brand, origin := c.origin,
    wrapper := c.wrapper, body := c.body, strength := c.strength,
    price := c.priceRange, time := c.smokingTime,
    description := c.description, tastingNotes := c.tastingNotes,
    pairings := c.pairings, productUrl := optTruthy c.productUrl,
    imageUrl := optTruthy c.imageUrl }

/-- A model image response with self-reported confidence 50 and a non-empty
structured cigar list (the cigar is a real inventory item). -/
def lowConfResponse : String :=
  "\x7b\"confidence\":50,\"message\":\"This might be a Padron 1964 Anniversary Maduro.\",\"cigars\":[\x7b\"name\":\"1964 Anniversary Maduro\",\"brand\":\"Padron\",\"origin\":\"Nicaragua\",\"wrapper\":\"Maduro\",\"body\":\"Full\",\"strength\":\"Full\",\"price\":\"$15\",\"time\":\"60min\",\"description\":\"Classic.\",\"tastingNotes\":[\"cocoa\"],\"pairings\":\x7b\"alcoholic\":[\"rum\"],\"nonAlcoholic\":[\"espresso\"]\x7d\x7d]\x7d"

/-- A model image response naming a cigar that is not in the inventory, with
high self-reported confidence. -/
def noMatchResponse : String :=
  "\x7b\"confidence\":90,\"message\":\"I can see this is a Cohiba Behike!\",\"cigars\":[\x7b\"name\":\"Cohiba Behike\",\"brand\":\"Cohiba\",\"origin\":\"Cuba\",\"wrapper\":\"Natural\",\"body\":\"Full\",\"strength\":\"Full\",\"price\":\"$30\",\"time\":\"60min\",\"description\":\"Rare.\",\"tastingNotes\":[\"cedar\"],\"pairings\":\x7b\"alcoholic\":[\"rum\"],\"nonAlcoholic\":[\"coffee\"]\x7d\x7d]\x7d"

/-- A model image response with an empty structured cigar list whose prose
names an inventory cigar (backfill case), below-threshold confidence. -/
def backfillResponse : String :=
  "\x7b\"confidence\":60,\"message\":\"I can see this is a Padron 1964 Anniversary Maduro!\",\"cigars\":[]\x7d"

set_option maxRecDepth 100000

theorem foldBest_snd (qn qb : Chars) (l : List CatalogEntry)
    (acc : Option CatalogEntry × Nat) :
    (l.foldl (fun a c =>
      let s := scoreEntry qn qb c
      if s > a.2 then (some c, s) else a) acc).2 =
    max acc.2 ((l.map (scoreEntry qn qb)).foldr max 0) := by
  induction l generalizing acc with
  | nil => simp
  | cons c l ih =>
    simp only [List.foldl_cons, List.map_cons, List.foldr_cons]
    rw [ih]
    have hstep : ((if scoreEntry qn qb c > acc.2
        then (some c, scoreEntry qn qb c) else acc)).2 =
        max acc.2 (scoreEntry qn qb c) := by
      split <;> omega
    simp only [hstep]
    omega

theorem foldBest_fst (qn qb : Chars) (l : List CatalogEntry)
    (acc : Option CatalogEntry × Nat) :
    (l.foldl (fun a c =>
      let s := scoreEntry qn qb c
      if s > a.2 then (some c, s) else a) acc) = acc ∨
    ∃ c ∈ l, (l.foldl (fun a c =>
      let s := scoreEntry qn qb c
      if s > a.2 then (some c, s) else a) acc).1 = some c ∧
      (l.foldl (fun a c =>
        let s := scoreEntry qn qb c
        if s > a.2 then (some c, s) else a) acc).2 = scoreEntry qn qb c := by
  induction l generalizing acc with
  | nil => left; rfl
  | cons c l ih =>
    simp only [List.foldl_cons]
    rcases ih (if scoreEntry qn qb c > acc.2
        then (some c, scoreEntry qn qb c) else acc) with h | ⟨c', hc', h1, h2⟩
    · by_cases hs : scoreEntry qn qb c > acc.2
      · right
        refine ⟨c, List.mem_cons_self c l, ?_, ?_⟩ <;> rw [h] <;> simp [hs]
      · left; rw [h]; simp [hs]
    · right; exact ⟨c', List.mem_cons_of_mem _ hc', h1, h2⟩

theorem mem_queryTokens_of_name (qn qb : Chars) (t : Chars)
    (ht : t ∈ tokenize (String.mk qn)) : t ∈ queryTokens qn qb := by
  unfold queryTokens
  by_cases hb : t ∈ tokenize (String.mk qb)
  · exact List.mem_append_left _ hb
  · refine List.mem_append_right _ (List.mem_filter.mpr ⟨ht, ?_⟩)
    simpa [List.contains] using hb

theorem findBest_snd (l : List CatalogEntry) (qn qb : Chars) :
    (findBest l qn qb).2 = (l.map (scoreEntry qn qb)).foldr max 0 := by
  unfold findBest
  rw [foldBest_snd]
  simp

theorem findBest_cases (l : List CatalogEntry) (qn qb : Chars) :
    (findBest l qn qb).1 = none ∨
    ∃ c ∈ l, (findBest l qn qb).1 = some c ∧
      (findBest l qn qb).2 = scoreEntry qn qb c := by
  unfold findBest
  rcases foldBest_fst qn qb l (none, 0) with h | ⟨c, hc, h1, h2⟩
  · left; rw [h]
  · right; exact ⟨c, hc, h1, h2⟩

theorem scoreEntry_eq_zero (qn qb : Chars) (c : CatalogEntry)
    (hdisj : ∀ t ∈ queryTokens qn qb, t ∉ entryTokens c)
    (hne : queryCompositeC qn qb ≠ entryComposite c)
    (hnameNe : tokenize (String.mk (lowerChars c.name.data)) ≠ [])
    (hnameSub : ∀ t ∈ tokenize (String.mk (lowerChars c.name.data)),
      t ∈ entryTokens c)
    (hfullNe : tokenize (String.mk (entryComposite c)) ≠ [])
    (hfullSub : ∀ t ∈ tokenize (String.mk (entryComposite c)),
      t ∈ entryTokens c) :
    scoreEntry qn qb c = 0 := by
  have hqmem : ∀ t ∈ tokenize (String.mk qn), t ∈ queryTokens qn qb :=
    fun t ht => mem_queryTokens_of_name qn qb t ht
  unfold scoreEntry
  dsimp only
  rw [if_neg, if_neg]
  · have hmat : (queryTokens qn qb).filter
        (fun qt => decide (¬ isNoise qt = true ∧ (entryTokens c).contains qt = true)) = [] := by
      rw [List.filter_eq_nil_iff]
      intro t ht
      simp only [decide_eq_true_eq, not_and]
      intro _ hcont
      exact hdisj t ht (by simpa [List.contains] using hcont)
    rw [hmat]
    simp
  · rintro (h98 | h98)
    · obtain ⟨t0, ht0⟩ := List.exists_mem_of_ne_nil _ hfullNe
      exact hdisj t0 (hqmem t0 (h98 ▸ ht0)) (hfullSub t0 ht0)
    · exact hne h98
  · rintro (h100 | h100)
    · exact hne h100.symm
    · obtain ⟨t0, ht0⟩ := List.exists_mem_of_ne_nil _ hnameNe
      exact hdisj t0 (hqmem t0 (h100 ▸ ht0)) (hnameSub t0 ht0)

/-- C3: `findInventoryMatch` returns an entry only when that entry attains
the maximum per-entry score over the catalog and that maximum reaches the
acceptance floor 25, and returns none otherwise; in particular every query
whose tokens share no overlap with the tokens of any catalog entry, and whose
composite string neither equals nor is contained in any entry composite
string, yields none. -/
theorem findInventoryMatch_max_floor :
    (∀ qn qb c, findInventoryMatch qn qb = some c →
      c ∈ cigarsCatalog ∧
      scoreEntry (normQ qn) (normQ qb) c = maxScoreFor qn qb ∧
      25 ≤ maxScoreFor qn qb) ∧
    (∀ qn qb, maxScoreFor qn qb < 25 → findInventoryMatch qn qb = none) ∧
    (∀ qn qb,
      (∀ c ∈ cigarsCatalog,
        (∀ t ∈ queryTokens (normQ qn) (normQ qb), t ∉ entryTokens c) ∧
        queryComposite qn qb ≠ entryComposite c ∧
        subStr (queryComposite qn qb) (entryComposite c) = false) →
      findInventoryMatch qn qb = none) := by
  have hM : ∀ qn qb : String,
      (findBest cigarsCatalog (normQ qn) (normQ qb)).2 = maxScoreFor qn qb :=
    fun qn qb => by rw [findBest_snd]; rfl
  refine ⟨?_, ?_, ?_⟩
  · intro qn qb c h
    unfold findInventoryMatch at h
    dsimp only at h
    by_cases h25 : (findBest cigarsCatalog (normQ qn) (normQ qb)).2 ≥ 25
    · rw [if_pos h25] at h
      rcases findBest_cases cigarsCatalog (normQ qn) (normQ qb) with hn |
        ⟨c', hc', h1, h2⟩
      · rw [hn] at h; simp at h
      · rw [h1] at h
        have hcc : c' = c := Option.some.inj h
        subst hcc
        refine ⟨hc', ?_, ?_⟩
        · rw [← hM qn qb]; exact h2.symm
        · rw [← hM qn qb]; exact h25
    · rw [if_neg h25] at h; simp at h
  · intro qn qb hlt
    unfold findInventoryMatch
    dsimp only
    rw [if_neg]
    intro hge
    rw [hM qn qb] at hge
    omega
  · intro qn qb h
    have hz : ∀ c ∈ cigarsCatalog, scoreEntry (normQ qn) (normQ qb) c = 0 := by
      intro c hc
      obtain ⟨h1, h2, _h3⟩ := h c hc
      have hcases : c = fuenteHemingway ∨ c = padron1964 ∨ c = ligaNo9 ∨
          c = davidoffGrandCru := by simpa [cigarsCatalog] using hc
      rcases hcases with rfl | rfl | rfl | rfl <;>
        exact scoreEntry_eq_zero _ _ _ h1 h2 (by decide) (by decide)
          (by decide) (by decide)
    have hM0 : maxScoreFor qn qb = 0 := by
      have e1 := hz fuenteHemingway (by simp [cigarsCatalog])
      have e2 := hz padron1964 (by simp [cigarsCatalog])
      have e3 := hz ligaNo9 (by simp [cigarsCatalog])
      have e4 := hz davidoffGrandCru (by simp [cigarsCatalog])
      simp [maxScoreFor, catalogScores, cigarsCatalog, e1, e2, e3, e4]
    unfold findInventoryMatch
    dsimp only
    rw [if_neg]
    intro hge
    rw [hM qn qb, hM0] at hge
    omega

/-- C3 witness: a query with no token overlap and no composite
equality/containment with any entry resolves to none. -/
theorem findInventoryMatch_max_floor_witness :
    findInventoryMatch "zzz qqq" "" = none :=
  findInventoryMatch_max_floor.2.2 "zzz qqq" "" (by decide)

/-- C4: every catalog entry self-matches with score 100. -/
theorem findInventoryMatch_self (c : CatalogEntry) (hc : c ∈ cigarsCatalog) :
    findInventoryMatch c.name c.brand = some c ∧
    bestScoreFor c.name c.brand = 100 := by
  have hcases : c = fuenteHemingway ∨ c = padron1964 ∨ c = ligaNo9 ∨
      c = davidoffGrandCru := by simpa [cigarsCatalog] using hc
  rcases hcases with rfl | rfl | rfl | rfl <;> exact ⟨by decide, by decide⟩

/-- C4 witness: the Padron entry self-matches. -/
theorem findInventoryMatch_self_witness :
    padron1964 ∈ cigarsCatalog ∧
    findInventoryMatch padron1964.name padron1964.brand = some padron1964 ∧
    bestScoreFor padron1964.name padron1964.brand = 100 :=
  ⟨by decide, (findInventoryMatch_self padron1964 (by decide)).1,
    (findInventoryMatch_self padron1964 (by decide)).2⟩

/-- C2: filtered cigars always carry a non-empty image or product link. -/
theorem filterCigarsByInventory_keeps_urls (l : List EnrichedCigar)
    (c : EnrichedCigar) (hc : c ∈ filterCigarsByInventory l) :
    isTruthyOpt c.imageUrl = true ∨ isTruthyOpt c.productUrl = true := by
  unfold filterCigarsByInventory at hc
  have h := (List.mem_filter.mp hc).2
  rcases (Bool.or_eq_true _ _).mp (by simpa using h) with h1 | h1
  · right; exact h1
  · left; exact h1

/-- C2 witness. -/
theorem filterCigarsByInventory_keeps_urls_witness :
    displayFrom padron1964 ∈
      filterCigarsByInventory [displayFrom padron1964] ∧
    (isTruthyOpt (displayFrom padron1964).imageUrl = true ∨
      isTruthyOpt (displayFrom padron1964).productUrl = true) :=
  ⟨by decide, filterCigarsByInventory_keeps_urls [displayFrom padron1964]
    (displayFrom padron1964) (by decide)⟩

/-- C9: a candidate built from a catalog entry survives enrichment and
filtering as exactly the display cigar of that entry. -/
theorem enrich_filter_roundtrip (c : CatalogEntry) (hc : c ∈ cigarsCatalog) :
    filterCigarsByInventory (enrichWithInventoryData [candidateFrom c]) =
      [displayFrom c] := by
  have hcases : c = fuenteHemingway ∨ c = padron1964 ∨ c = ligaNo9 ∨
      c = davidoffGrandCru := by simpa [cigarsCatalog] using hc
  rcases hcases with rfl | rfl | rfl | rfl <;> decide

/-- C9 witness. -/
theorem enrich_filter_roundtrip_witness :
    padron1964 ∈ cigarsCatalog ∧
    filterCigarsByInventory (enrichWithInventoryData
      [candidateFrom padron1964]) = [displayFrom padron1964] :=
  ⟨by decide, enrich_filter_roundtrip padron1964 (by decide)⟩

/-- C8: a user message with fewer than two tokens, or whose extracted query
has no non-noise token, resolves to none. -/
theorem findCigarFromUserMessage_guards (m : String)
    (h : (userMsgTokens m).length < 2 ∨ userQueryTokens m = []) :
    findCigarFromUserMessage m = none := by
  unfold findCigarFromUserMessage
  rcases h with h | h
  · rw [if_pos h]
  · by_cases h2 : (userMsgTokens m).length < 2
    · rw [if_pos h2]
    · have h0 : (userQueryTokens m).length < 1 := by rw [h]; decide
      rw [if_neg h2, if_pos h0]

/-- C8 witness. -/
theorem findCigarFromUserMessage_guards_witness :
    (userMsgTokens "hi").length < 2 ∧ findCigarFromUserMessage "hi" = none :=
  ⟨by decide, findCigarFromUserMessage_guards "hi" (Or.inl (by decide))⟩

/-- C7: when the structured cigar list is empty but the prose backfill
succeeds, the guardrail returns that single cigar and raises a
below-threshold confidence to 80. -/
theorem parseImageResponse_backfill (r : String) (b : CigarRecommendation)
    (h1 : (parseModelResponse r).cigars = [])
    (h2 : findCigarFromImageMessage (parseModelResponse r).message = some b) :
    (parseImageResponse r).cigars = [b] ∧
    ((parseModelResponse r).confidence.getD 50 < 75 →
      (parseImageResponse r).confidence = 80) := by
  unfold parseImageResponse imageGuard
  dsimp only
  rw [h1, h2]
  constructor
  · simp
  · intro hlt
    simp [hlt]

/-- C7 witness. -/
theorem parseImageResponse_backfill_witness :
    (parseModelResponse backfillResponse).cigars = [] ∧
    findCigarFromImageMessage (parseModelResponse backfillResponse).message =
      some (recommendationOf padron1964) ∧
    (parseImageResponse backfillResponse).cigars =
      [recommendationOf padron1964] ∧
    (parseModelResponse backfillResponse).confidence.getD 50 < 75 ∧
    (parseImageResponse backfillResponse).confidence = 80 := by
  have h1 : (parseModelResponse backfillResponse).cigars = [] := by decide
  have h2 : findCigarFromImageMessage
      (parseModelResponse backfillResponse).message =
      some (recommendationOf padron1964) := by decide
  have hlt : (parseModelResponse backfillResponse).confidence.getD 50 < 75 :=
    by decide
  exact ⟨h1, h2, (parseImageResponse_backfill _ _ h1 h2).1, hlt,
    (parseImageResponse_backfill _ _ h1 h2).2 hlt⟩

/-- C1 evaluation: a parsed image response with confidence 50 and a
non-empty cigar list passes through `parseImageResponse` with its cigars and
confidence unchanged (the low-confidence branch only fires on an already
empty list). -/
theorem parseImageResponse_low_conf_passthrough :
    (parseModelResponse lowConfResponse).confidence = some 50 ∧
    (parseModelResponse lowConfResponse).cigars ≠ [] ∧
    (parseImageResponse lowConfResponse).cigars =
      (parseModelResponse lowConfResponse).cigars ∧
    (parseImageResponse lowConfResponse).confidence = 50 := by decide

/-- C10: when the parsed image response has cigars but enrichment plus
filtering drops them all, the flow returns no cigars and confidence
`min(parsed, 74)`, strictly below the 75 threshold. -/
theorem imageFlow_drop_caps_confidence (r : String)
    (h1 : (parseImageResponse r).cigars ≠ [])
    (h2 : filterCigarsByInventory
      (enrichWithInventoryData (parseImageResponse r).cigars) = []) :
    imageFlow r =
      { message := notInInventoryMsg, cigars := [],
        confidence := min (parseImageResponse r).confidence 74 } ∧
    min (parseImageResponse r).confidence 74 < 75 := by
  constructor
  · unfold imageFlow
    dsimp only
    rw [if_pos ⟨h2, h1⟩]
  · have hle : min (parseImageResponse r).confidence 74 ≤ 74 :=
      min_le_right _ _
    omega

/-- C10 witness. -/
theorem imageFlow_drop_caps_confidence_witness :
    (parseImageResponse noMatchResponse).cigars ≠ [] ∧
    filterCigarsByInventory (enrichWithInventoryData
      (parseImageResponse noMatchResponse).cigars) = [] ∧
    imageFlow noMatchResponse =
      { message := notInInventoryMsg, cigars := [],
        confidence := min (parseImageResponse noMatchResponse).confidence 74 } ∧
    min (parseImageResponse noMatchResponse).confidence 74 < 75 := by
  have h1 : (parseImageResponse noMatchResponse).cigars ≠ [] := by decide
  have h2 : filterCigarsByInventory (enrichWithInventoryData
      (parseImageResponse noMatchResponse).cigars) = [] := by decide
  exact ⟨h1, h2, (imageFlow_drop_caps_confidence _ h1 h2).1,
    (imageFlow_drop_caps_confidence _ h1 h2).2⟩

/-- C5 counterexample: strict containment of the query composite in the
entry composite scores 115 (token score plus bonuses), not 98. -/
theorem containment_scores_115_not_98 :
    queryComposite "1964 Anniversary" "Padron" ≠ entryComposite padron1964 ∧
    subStr (queryComposite "1964 Anniversary" "Padron")
      (entryComposite padron1964) = true ∧
    scoreEntry (normQ "1964 Anniversary") (normQ "Padron") padron1964 = 115 ∧
    (115 : Nat) ≠ 98 := by decide

/-- C5 amended: score 98 is assigned exactly by composite-string equality:
the entry composite equals the bare query name, or the query composite equals
the entry composite, once the 100 rule has failed. -/
theorem score98_composite_equality (qn qb : String) (c : CatalogEntry)
    (h100 : ¬ (entryComposite c = queryComposite qn qb ∨
      lowerChars c.name.data = normQ qn))
    (h98 : entryComposite c = normQ qn ∨
      queryComposite qn qb = entryComposite c) :
    scoreEntry (normQ qn) (normQ qb) c = 98 := by
  have h100c : ¬ (entryComposite c = queryCompositeC (normQ qn) (normQ qb) ∨
      lowerChars c.name.data = normQ qn) := h100
  have h98c : entryComposite c = normQ qn ∨
      queryCompositeC (normQ qn) (normQ qb) = entryComposite c := h98
  unfold scoreEntry
  dsimp only
  rw [if_neg h100c, if_pos h98c]

/-- C5 amended witness: a query repeating the brand inside the name field
makes the entry composite equal the bare query name. -/
theorem score98_composite_equality_witness :
    ¬ (entryComposite padron1964 =
        queryComposite "Padron 1964 Anniversary Maduro" "Padron" ∨
      lowerChars padron1964.name.data =
        normQ "Padron 1964 Anniversary Maduro") ∧
    (entryComposite padron1964 = normQ "Padron 1964 Anniversary Maduro" ∨
      queryComposite "Padron 1964 Anniversary Maduro" "Padron" =
        entryComposite padron1964) ∧
    scoreEntry (normQ "Padron 1964 Anniversary Maduro") (normQ "Padron")
      padron1964 = 98 :=
  ⟨by decide, by decide,
    score98_composite_equality "Padron 1964 Anniversary Maduro" "Padron"
      padron1964 (by decide) (by decide)⟩

/-- C6 counterexample: with no JSON structure the parser returns the empty
message, not the raw text. -/
theorem parse_no_json_empty_message :
    jsonSpan (cleanResponse (cs "hello world")) = none ∧
    parseModelResponse "hello world" =
      { message := "", cigars := [], confidence := none } ∧
    ( "" : String) ≠ "hello world" := by decide

/-- C6 amended: with no JSON structure the parser falls back to regex
extraction; when that also finds no quoted message and no cigars-name
fragment, the result is the empty message with an empty cigar list (and, being
a total function, it never throws). -/
theorem parse_no_json_fallback (r : String)
    (hspan : jsonSpan (cleanResponse r.data) = none)
    (hmsg : scanS msgCapAt (cleanResponse r.data) = none)
    (hcig : scanS cigarCapAt (cleanResponse r.data) = none) :
    (parseModelResponse r).message = "" ∧
    (parseModelResponse r).cigars = [] := by
  unfold parseModelResponse
  dsimp only
  rw [hspan]
  unfold regexFallback
  dsimp only
  rw [hmsg, hcig]
  exact ⟨rfl, rfl⟩

/-- C6 amended witness. -/
theorem parse_no_json_fallback_witness :
    jsonSpan (cleanResponse (cs "hello world")) = none ∧
    (parseModelResponse "hello world").message = "" ∧
    (parseModelResponse "hello world").cigars = [] := by
  have hspan : jsonSpan (cleanResponse ( "hello world" : String).data) = none :=
    by decide
  have hmsg : scanS msgCapAt (cleanResponse ( "hello world" : String).data) =
      none := by decide
  have hcig : scanS cigarCapAt (cleanResponse ( "hello world" : String).data) =
      none := by decide
  exact ⟨hspan, (parse_no_json_fallback "hello world" hspan hmsg hcig).1,
    (parse_no_json_fallback "hello world" hspan hmsg hcig).2⟩
